import Mathlib

/-!
Verification of the gotdom selector engine (`src/selector/pattern.rs`,
`src/rules/{all,id}.rs`, `src/utils.rs`) against its specification.

The Rust code is shallowly embedded:
* character sequences are `List Char`;
* a pattern kind is a constructor of `Pat` (the trait objects built from the
  registered kinds); the general `RegExp` kind appears in the pattern registry
  as a `PatternBox`, while the one concrete regular expression the `Nth` kind
  owns is modelled by a dedicated prefix parser implementing that regex with
  the leftmost-first semantics and Unicode-aware character classes of the
  `regex` crate, including the byte-length slice of `RegExp::matched` that
  can panic on multibyte matches;
* a call that can panic (out-of-bounds indexing, `expect`, `no_implemented`)
  returns `Option`, with `none` for the panic;
* machine integers (`isize`/`usize`) are `Int`/`Nat`; every cast the source
  performs happens on values proved (or assumed by the claims) to be far below
  2^63, so the casts are embedded as the exact coercions.
-/

/-- Result of a successful pattern application (`Matched` in pattern.rs):
the consumed characters, the pattern's semantic name, and the capture map.
The Rust capture map is a `HashMap`; it is embedded as an insertion-ordered
association list, always read through `mdGet`. -/
structure Matched where
  chars : List Char
  name : String
  data : List (String × String)
deriving Repr, DecidableEq

/-- Lookup in the capture map (`HashMap::get`). -/
def mdGet : List (String × String) → String → Option String
  | [], _ => none
  | (k, v) :: rest, key => if k = key then some v else mdGet rest key

/-- `char::is_ascii_whitespace` from Rust: space, horizontal tab, newline,
form feed, carriage return. -/
def isAsciiWhitespace (c : Char) : Bool :=
  c = ' ' ∨ c = '\t' ∨ c = '\n' ∨ c = '\x0c' ∨ c = '\r'

/-- `utils::is_non_character`: the Unicode noncharacters.  The source lists
U+FDD0..U+FDEF and the final two code points of each of the 17 planes; the
plane list is folded into the `% 0x10000` test, which agrees with the
explicit list on every valid scalar value. -/
def is_non_character (ch : Char) : Bool :=
  (0xFDD0 ≤ ch.toNat ∧ ch.toNat ≤ 0xFDEF) ∨
  ch.toNat % 0x10000 = 0xFFFE ∨ ch.toNat % 0x10000 = 0xFFFF

/-- `char::is_ascii_control`: U+0000..U+001F and U+007F. -/
def isAsciiControl (c : Char) : Bool :=
  c.toNat < 0x20 ∨ c.toNat = 0x7F

/-- `utils::is_char_available_in_key`. -/
def is_char_available_in_key (ch : Char) : Bool :=
  if isAsciiWhitespace ch ∨ isAsciiControl ch ∨ is_non_character ch then false
  else ¬(ch = '\x00' ∨ ch = '"' ∨ ch = '\'' ∨ ch = '>' ∨ ch = '/' ∨ ch = '=')

/-- The explicit character class `[0-9]` of the `Nth` regular
expression. -/
def isReDigit (c : Char) : Bool := '0' ≤ c ∧ c ≤ '9'

/-- The character class `[1-9]` of the `Nth` regular expression. -/
def isNZDigit (c : Char) : Bool := '1' ≤ c ∧ c ≤ '9'

/-- The class `\s` of the `Nth` regular expression: the `regex` crate's
Unicode-aware whitespace class, i.e. the White_Space code points. -/
def isReSpace (c : Char) : Bool :=
  (0x9 ≤ c.toNat ∧ c.toNat ≤ 0xD) ∨ c.toNat = 0x20 ∨ c.toNat = 0x85 ∨
  c.toNat = 0xA0 ∨ c.toNat = 0x1680 ∨ (0x2000 ≤ c.toNat ∧ c.toNat ≤ 0x200A) ∨
  c.toNat = 0x2028 ∨ c.toNat = 0x2029 ∨ c.toNat = 0x202F ∨ c.toNat = 0x205F ∨
  c.toNat = 0x3000

/-- The scalar-value ranges of the Unicode decimal-digit category `Nd`
(Unicode 13.0, the tables of the `regex` crate releases contemporary with
the source). -/
def ndRanges : List (Nat × Nat) :=
  [(0x30, 0x39), (0x660, 0x669), (0x6F0, 0x6F9), (0x7C0, 0x7C9),
   (0x966, 0x96F), (0x9E6, 0x9EF), (0xA66, 0xA6F), (0xAE6, 0xAEF),
   (0xB66, 0xB6F), (0xBE6, 0xBEF), (0xC66, 0xC6F), (0xCE6, 0xCEF),
   (0xD66, 0xD6F), (0xDE6, 0xDEF), (0xE50, 0xE59), (0xED0, 0xED9),
   (0xF20, 0xF29), (0x1040, 0x1049), (0x1090, 0x1099), (0x17E0, 0x17E9),
   (0x1810, 0x1819), (0x1946, 0x194F), (0x19D0, 0x19D9), (0x1A80, 0x1A89),
   (0x1A90, 0x1A99), (0x1B50, 0x1B59), (0x1BB0, 0x1BB9), (0x1C40, 0x1C49),
   (0x1C50, 0x1C59), (0xA620, 0xA629), (0xA8D0, 0xA8D9), (0xA900, 0xA909),
   (0xA9D0, 0xA9D9), (0xA9F0, 0xA9F9), (0xAA50, 0xAA59), (0xABF0, 0xABF9),
   (0xFF10, 0xFF19), (0x104A0, 0x104A9), (0x10D30, 0x10D39),
   (0x11066, 0x1106F), (0x110F0, 0x110F9), (0x11136, 0x1113F),
   (0x111D0, 0x111D9), (0x112F0, 0x112F9), (0x11450, 0x11459),
   (0x114D0, 0x114D9), (0x11650, 0x11659), (0x116C0, 0x116C9),
   (0x11730, 0x11739), (0x118E0, 0x118E9), (0x11950, 0x11959),
   (0x11C50, 0x11C59), (0x11D50, 0x11D59), (0x11DA0, 0x11DA9),
   (0x16A60, 0x16A69), (0x16B50, 0x16B59), (0x1D7CE, 0x1D7FF),
   (0x1E140, 0x1E149), (0x1E2F0, 0x1E2F9), (0x1E950, 0x1E959),
   (0x1FBF0, 0x1FBF9)]

/-- The class `\d` of the `Nth` regular expression: the `regex` crate's
Unicode-aware decimal-digit class `\p{Nd}`. -/
def isUnicodeDigit (c : Char) : Bool :=
  ndRanges.any (fun r => r.1 ≤ c.toNat ∧ c.toNat ≤ r.2)

/-- Rust `char::len_utf8`: the UTF-8 byte length of one scalar value. -/
def charUtf8Len (c : Char) : Nat :=
  if c.toNat < 0x80 then 1
  else if c.toNat < 0x800 then 2
  else if c.toNat < 0x10000 then 3
  else 4

/-- Rust `str::len`: the UTF-8 byte length of a text.  `caps[0].len()` in
`RegExp::matched` is this byte count, not a character count. -/
def utf8Length (cs : List Char) : Nat := (cs.map charUtf8Len).sum

/-- The fragment `([0-9]|[1-9]\d+)?n` of the `Nth` regex: capture group 2
followed by the literal `n`.  Leftmost-first semantics: a present group is
preferred to an absent one, and inside the group the single-digit branch is
preferred; the run taken by the Unicode-aware `\d+` is the maximal one
because its follower `n` is not a digit, so no shorter run can succeed.
Returns group 2 and the suffix after `n`. -/
def parseCoeffN (cs : List Char) : Option (Option String × List Char) :=
  match cs with
  | [] => none
  | c :: rest =>
    if isReDigit c then
      match rest with
      | 'n' :: r2 => some (some (String.mk [c]), r2)
      | _ =>
        if isNZDigit c then
          let ds := rest.takeWhile isUnicodeDigit
          if ds.isEmpty then none
          else
            match rest.drop ds.length with
            | 'n' :: r3 => some (some (String.mk (c :: ds)), r3)
            | _ => none
        else none
    else
      match cs with
      | 'n' :: r => some (none, r)
      | _ => none

/-- The optional tail `(?:\s*([+-])\s*([0-9]|[1-9]\d+))?` of the first
alternative of the `Nth` regex.  `\s*` takes the maximal run (its follower
is never whitespace), and group 4 is always a single digit: the regex ends
after it, so the leftmost-first `[0-9]` branch always wins, and when it
fails `[1-9]\d+` fails too. -/
def parseTailA (cs : List Char) : Option (String × String × List Char) :=
  match cs.dropWhile isReSpace with
  | [] => none
  | c :: r2 =>
    if c = '+' ∨ c = '-' then
      match r2.dropWhile isReSpace with
      | [] => none
      | d :: r4 => if isReDigit d then some (String.mk [c], String.mk [d], r4) else none
    else none

/-- The first alternative of the `Nth` regex after the optional sign:
groups 2-4 and the unconsumed suffix. -/
def branchACore (cs : List Char) :
    Option (Option String × Option String × Option String × List Char) :=
  match parseCoeffN cs with
  | some (g2, r) =>
    match parseTailA r with
    | some (g3, g4, r2) => some (g2, some g3, some g4, r2)
    | none => some (g2, none, none, r)
  | none => none

/-- The first alternative `([-+])?([0-9]|[1-9]\d+)?n(?:\s*([+-])\s*([0-9]|[1-9]\d+))?`
of the `Nth` regex, with the backtracking step for the optional sign. -/
def branchA (cs : List Char) :
    Option (Option String × Option String × Option String × Option String × List Char) :=
  match cs with
  | [] => none
  | c :: rest =>
    if c = '-' ∨ c = '+' then
      match branchACore rest with
      | some (g2, g3, g4, r) => some (some (String.mk [c]), g2, g3, g4, r)
      | none =>
        match branchACore cs with
        | some (g2, g3, g4, r) => some (none, g2, g3, g4, r)
        | none => none
    else
      match branchACore cs with
      | some (g2, g3, g4, r) => some (none, g2, g3, g4, r)
      | none => none

/-- The second alternative `([-+])?([0-9]|[1-9]\d+)` of the `Nth` regex
(groups 5 and 6).  Group 6 is always one digit: nothing follows it in the
regex, so the leftmost-first `[0-9]` branch wins whenever any digit is
there. -/
def branchB (cs : List Char) : Option (Option String × String × List Char) :=
  match cs with
  | [] => none
  | c :: rest =>
    if c = '-' ∨ c = '+' then
      match rest with
      | [] => none
      | d :: r2 => if isReDigit d then some (some (String.mk [c]), String.mk [d], r2) else none
    else if isReDigit c then some (none, String.mk [c], rest)
    else none

/-- The capture map `RegExp::matched` builds: groups 1..6 in index order,
absent groups skipped, keyed by the decimal group number. -/
def mdataOfCaps (g1 g2 g3 g4 g5 g6 : Option String) : List (String × String) :=
  (match g1 with | some v => [("1", v)] | none => []) ++
  (match g2 with | some v => [("2", v)] | none => []) ++
  (match g3 with | some v => [("3", v)] | none => []) ++
  (match g4 with | some v => [("4", v)] | none => []) ++
  (match g5 with | some v => [("5", v)] | none => []) ++
  (match g6 with | some v => [("6", v)] | none => [])

/-- `RegExp::matched` for the one anchored regular expression owned by
`Nth::matched`
(`^(?:([-+])?([0-9]|[1-9]\d+)?n(?:\s*([+-])\s*([0-9]|[1-9]\d+))?|([-+])?([0-9]|[1-9]\d+))`),
with the leftmost-first alternation preference of the `regex` crate.  On a
match the source slices `chars[..caps[0].len()]` — a UTF-8 BYTE length
applied to a character buffer: when the matched text contains multibyte
characters the slice end exceeds the characters available and the call
panics (the outer `none`); short of a panic the slice takes
`caps[0].len()` characters, which is exactly the matched text when it is
all ASCII. -/
def nthRegexRun (cs : List Char) : Option (Option Matched) :=
  match branchA cs with
  | some (g1, g2, g3, g4, r) =>
    let total_len := utf8Length (cs.take (cs.length - r.length))
    if cs.length < total_len then none
    else some (some ⟨cs.take total_len, "regexp", mdataOfCaps g1 g2 g3 g4 none none⟩)
  | none =>
    match branchB cs with
    | some (g5, g6, r) =>
      let total_len := utf8Length (cs.take (cs.length - r.length))
      if cs.length < total_len then none
      else some (some ⟨cs.take total_len, "regexp",
        mdataOfCaps none none none none g5 (some g6)⟩)
    | none => some none

/-- `Nth::get_number`: read the digits at `keys.0` (falling back to the
default), prefixing a minus sign when the sign capture at `keys.1` is `-`. -/
def nthGetNumber (data : List (String × String)) (k0 k1 : String)
    (dflt : Option String) : Option String :=
  match (mdGet data k0).or dflt with
  | some idx => some (if mdGet data k1 = some "-" then "-" ++ idx else idx)
  | none => none

/-- The slice pattern (`impl Pattern for &[char]`): an exact ordered run of
characters, failing atomically on length shortfall or any mismatch. -/
def seqMatchedFn (s cs : List Char) : Option Matched :=
  if s.length > cs.length then none
  else if cs.take s.length = s then some ⟨s, "", []⟩
  else none

/-- `Nth::matched`: try the regular expression, else the `even` / `odd`
keywords; succeed only when some capture data was produced.  The outer
`Option` propagates the byte-length slice panic of the regex step. -/
def nthMatchedRun (cs : List Char) : Option (Option Matched) :=
  match nthRegexRun cs with
  | none => none
  | some (some v) =>
    let only_index := (mdGet v.data "6").isSome
    let ik : String × String := if only_index then ("6", "5") else ("4", "3")
    let d1 : List (String × String) :=
      match nthGetNumber v.data ik.1 ik.2 none with
      | some idx => [("index", idx)]
      | none => []
    let d2 : List (String × String) :=
      if only_index then d1
      else
        match nthGetNumber v.data "2" "1" (some "1") with
        | some n => d1 ++ [("n", n)]
        | none => d1
    some (if d2.isEmpty then none else some ⟨v.chars, "nth", d2⟩)
  | some none =>
    some (
      if (seqMatchedFn ['e', 'v', 'e', 'n'] cs).isSome then
        some ⟨['e', 'v', 'e', 'n'], "nth", [("n", "2"), ("index", "0")]⟩
      else if (seqMatchedFn ['o', 'd', 'd'] cs).isSome then
        some ⟨['o', 'd', 'd'], "nth", [("n", "2"), ("index", "1")]⟩
      else none)

/-- The result of `Nth::matched` on the inputs where the call returns (the
panic collapses to `none`): every input the keyword-equivalence claim
ranges over — `even`/`odd`-initial inputs and the ASCII formulas — stays
on the returning path. -/
def nthMatchedFn (cs : List Char) : Option Matched := (nthMatchedRun cs).join

/-- The pattern kinds whose `matched` implementations live in pattern.rs
(the `Box<dyn Pattern>` values that can appear in an `exec` queue). -/
inductive Pat where
  | ch (c : Char)
  | seq (s : List Char)
  | identity (optional : Bool)
  | attrKey
  | spaces (minCount : Nat)
  | index
  | nth
  | nestedSelector
deriving Repr, DecidableEq

/-- `Pattern::matched` for each kind.  The outer `Option` is panic: `none`
is an out-of-bounds access — the unconditional `chars[0]` reads of the
literal-char, `Identity` and `Index` implementations on an empty input, or
the byte-length slice inside the regex-backed `Nth` kind (`nthRegexRun`);
`some r` is a normal return with result `r`. -/
def pmatch : Pat → List Char → Option (Option Matched)
  | .ch c, cs =>
    match cs with
    | [] => none
    | x :: _ => some (if c = x then some ⟨[x], "", []⟩ else none)
  | .seq s, cs => some (seqMatchedFn s cs)
  | .identity optional, cs =>
    match cs with
    | [] => none
    | first :: _ =>
      some (
        if ¬(first.isAlpha ∨ first = '_') then
          if optional then some ⟨[], "identity", []⟩ else none
        else
          some ⟨cs.takeWhile (fun c => c.isAlphanum ∨ c = '-' ∨ c = '_'), "identity", []⟩)
  | .attrKey, cs =>
    some (
      let r := cs.takeWhile is_char_available_in_key
      if r.isEmpty then none else some ⟨r, "attr_key", []⟩)
  | .spaces minCount, cs =>
    some (
      let r := cs.takeWhile isAsciiWhitespace
      if minCount ≤ r.length then some ⟨r, "spaces", []⟩ else none)
  | .index, cs =>
    match cs with
    | [] => none
    | first :: rest =>
      some (
        if '0' ≤ first ∧ first < '9' then
          some ⟨first ::
            (if first ≠ '0' then rest.filter (fun c => '0' ≤ c ∧ c < '9') else []),
            "index", []⟩
        else none)
  | .nth, cs => nthMatchedRun cs
  | .nestedSelector, _ => some none

/-- Loop body of `exec`: walk the queue, slicing past the characters each
step consumed, stopping at the first failure; a panic in a step aborts the
whole call. -/
def execGo (queues : List Pat) (chars : List Char) (start_index : Nat)
    (acc : List Matched) (num : Nat) : Option (List Matched × Nat × Nat) :=
  match queues with
  | [] => some (acc.reverse, start_index, num)
  | q :: rest =>
    match pmatch q (chars.drop start_index) with
    | none => none
    | some none => some (acc.reverse, start_index, num)
    | some (some m) =>
      execGo rest chars (start_index + m.chars.length) (m :: acc) (num + 1)

/-- `exec`: the matched steps, the total consumed length, the number of
matched patterns, and whether the whole input was consumed. -/
def execP (queues : List Pat) (chars : List Char) :
    Option (List Matched × Nat × Nat × Bool) :=
  (execGo queues chars 0 [] 0).map
    (fun r => (r.1, r.2.1, r.2.2, r.2.1 = chars.length))

/-- Rounding modes of `utils::divide_isize` (not under src/). -/
inductive RoundType where
  | ceil
  | floor
deriving Repr, DecidableEq

/-- Modelled from the spec: `utils::divide_isize` is not under src/; §4.3
requires "true mathematical ceiling/floor for negative operands (not
truncation)".  Both call sites pass a positive divisor. -/
def divide_isize (a b : Int) : RoundType → Int
  | .floor => Int.fdiv a b
  | .ceil => -(Int.fdiv (-a) b)

/-- The inclusive integer range `start..=end` of the `for` loop in
`Nth::get_allowed_indexs`. -/
def intRangeI (a b : Int) : List Int :=
  (List.range (b + 1 - a).toNat).map (fun (k : Nat) => a + (k : Int))

/-- One iteration of the `Nth::get_allowed_indexs` loop: the 1-based
position `i*n + index`, skipped below 1, emitted as the 0-based index.
The source casts the position to `usize` before the guard; in the loop
ranges the resolver produces the position is at least 1
(`nthStep_pos_of_*` below), where the cast is the identity. -/
def nthStep (n index : Int) (i : Int) : Option Nat :=
  if i * n + index < 1 then none else some (i * n + index - 1).toNat

/-- `Nth::get_allowed_indexs`.  The source takes the numbers as
`Option<&str>` and parses; the claims quantify over the parsed integers, so
the embedding takes `Option Int` directly.  `none` is the `expect` panic
when both the coefficient and the offset are absent. -/
def get_allowed_indexs (n : Option Int) (index : Option Int) (total : Nat) :
    Option (List Nat) :=
  match n with
  | some n =>
    let index := (index.getD 0)
    if n = 0 then
      some (if 0 < index then (if index ≤ (total : Int) then [(index - 1).toNat] else [])
            else [])
    else if n < 0 then
      if index ≤ 0 then some []
      else if index ≤ -n then
        some (if index ≤ (total : Int) then [(index - 1).toNat] else [])
      else
        let start_loop := divide_isize (index - (total : Int)) (-n) .ceil
        let end_loop := divide_isize (index - 1) (-n) .floor
        let start_loop := if start_loop < 0 then 0 else start_loop
        if start_loop > end_loop then some []
        else some ((intRangeI start_loop end_loop).filterMap (nthStep n index))
    else
      let start_loop := divide_isize (1 - index) n .ceil
      let end_loop := divide_isize ((total : Int) - index) n .floor
      let start_loop := if start_loop < 0 then 0 else start_loop
      if start_loop > end_loop then some []
      else some ((intRangeI start_loop end_loop).filterMap (nthStep n index))
  | none =>
    match index with
    | some index =>
      some (if index ≤ 0 ∨ index > (total : Int) then [] else [(index - 1).toNat])
    | none => none

/-- An element handle.  The tree collaborator is external (§6); an element
is identified by its stable identity, the optional uuid used by
`IElementTrait::is`. -/
structure Element where
  uuid : Option Nat
deriving Repr, DecidableEq

/-- `IElementTrait::is` (interface/element.rs): stable-identity comparison,
true exactly when both uuids are present and equal. -/
def elemIs (a b : Element) : Bool :=
  match a.uuid, b.uuid with
  | some u, some v => u = v
  | _, _ => false

/-- Modelled from the spec: element cloning (an external capability, §6)
produces an independent handle to the same logical node; handles carry only
the stable identity, so a clone is the same value. -/
def elemCloned (e : Element) : Element := e

/-- The document collaborator as the id rule consumes it: the document-wide
id index (`IDocumentTrait::get_element_by_id`). -/
structure Doc where
  byId : String → Option Element

/-- The `all_handle` closure of the id rule (rules/id.rs).  The element
interface calls `owner_document` and `get_element_by_id` are passed as a
function, mirroring the trait objects; the cache flag is the
`Option<bool>` the handler receives, truthy exactly when it `is_some()`. -/
def idAllHandle (ownerDocument : Element → Option Doc) (id : String)
    (eles : List Element) (useCacheOpt : Option Bool) : List Element :=
  let use_cache := useCacheOpt.isSome
  match eles with
  | [] => []
  | first_ele :: _ =>
    match ownerDocument first_ele with
    | some doc =>
      match doc.byId id with
      | some id_element =>
        if use_cache then [elemCloned id_element]
        else
          match eles.find? (fun ele => elemIs ele id_element) with
          | some ele => [elemCloned ele]
          | none => []
      | none => []
    | none => []

/-- Modelled from the spec: `Elements::cloned` (interface/mod.rs is not
under src/) returns a new collection holding a cloned handle of every
element, in the same order. -/
def elementsCloned (eles : List Element) : List Element := eles.map elemCloned

/-- The `all_handle` closure of the universal rule (rules/all.rs):
`|eles, _| eles.cloned()`. -/
def allAllHandle (eles : List Element) (_useCacheOpt : Option Bool) : List Element :=
  elementsCloned eles

/-- A compiled regular expression.  Compilation is deterministic in the
pattern text, so a compiled value is represented by its anchored source
text: two equal values have identical match behaviour. -/
structure CompiledRegex where
  source : String
deriving Repr, DecidableEq

/-- `Regex::new` (always succeeds on the texts the engine feeds it). -/
def compileRegex (s : String) : CompiledRegex := ⟨s⟩

/-- The process-wide `REGEXS` cache, keyed by the exact anchored pattern
text (a `HashMap` embedded as an association list read through
`regexCacheGet`). -/
abbrev RegexCache : Type := List (String × CompiledRegex)

/-- `HashMap::get` on the regex cache. -/
def regexCacheGet (m : RegexCache) (key : String) : Option CompiledRegex :=
  match m with
  | [] => none
  | (k, v) :: rest => if k = key then some v else regexCacheGet rest key

/-- `RegExp::get_rule`: anchor the context with `^`; with caching, look the
anchored text up in the shared cache and insert a fresh compilation on a
miss; without caching, compile fresh and leave the cache alone.  Returns
the rule together with the cache state after the call. -/
def get_rule (context : String) (cache : Bool) (m : RegexCache) :
    CompiledRegex × RegexCache :=
  let last_context := "^" ++ context
  if cache then
    match regexCacheGet m last_context with
    | some rule => (rule, m)
    | none =>
      let value := compileRegex last_context
      (value, (last_context, value) :: m)
  else (compileRegex last_context, m)

/-- A `Box<dyn Pattern>` as a factory returns it: either one of the
directly-modelled kinds or a configured `RegExp` instance. -/
inductive PatternBox where
  | pat (p : Pat)
  | regExp (cache : Bool) (context : String)
deriving Repr, DecidableEq

/-- `check_params_return`: error (naming the concatenated parameters) when
any parameter is non-empty, else build the pattern. -/
def check_params_return (params : List String) (cb : Unit → PatternBox) :
    Except String PatternBox :=
  if params.all (fun p => p.isEmpty) then .ok (cb ())
  else .error ("Unrecognized params '" ++ String.join params ++ "'")

/-- `utils::chars_to_int`: `str::parse::<usize>` over the collected
characters — an optional `+` sign then at least one ASCII digit (overflow
is ignored: the engine only parses short digit runs).  The error text
stands in for the `ParseIntError` display. -/
def chars_to_int (v : List Char) : Except String Nat :=
  let digits := match v with
    | '+' :: rest => rest
    | _ => v
  if digits.isEmpty ∨ ¬(digits.all (fun c => '0' ≤ c ∧ c ≤ '9')) then
    .error "invalid digit found in string"
  else
    .ok (digits.foldl (fun acc c => 10 * acc + (c.toNat - '0'.toNat)) 0)

/-- `Identity::from_params`. -/
def identityFromParams (s p : String) : Option (Except String PatternBox) :=
  some (
    if s = "?" then .ok (.pat (.identity true))
    else check_params_return [p] (fun _ => .pat (.identity false)))

/-- `AttrKey::from_params`. -/
def attrKeyFromParams (s p : String) : Option (Except String PatternBox) :=
  some (check_params_return [s, p] (fun _ => .pat .attrKey))

/-- `Index::from_params`. -/
def indexFromParams (s p : String) : Option (Except String PatternBox) :=
  some (check_params_return [s, p] (fun _ => .pat .index))

/-- `Nth::from_params`. -/
def nthFromParams (s p : String) : Option (Except String PatternBox) :=
  some (check_params_return [s, p] (fun _ => .pat .nth))

/-- `NestedSelector::from_params`. -/
def nestedFromParams (s p : String) : Option (Except String PatternBox) :=
  some (check_params_return [s, p] (fun _ => .pat .nestedSelector))

/-- `RegExp::from_params`. -/
def regExpFromParams (s p : String) : Option (Except String PatternBox) :=
  some (
    if s.isEmpty then .ok (.regExp true p)
    else if s = "!" then .ok (.regExp false p)
    else .error "Wrong param of Pattern type 'regexp', just allow '!' to generate a regexp with 'cached' field falsely.")

/-- The ASCII fragment of Rust `char::is_whitespace` (Unicode
White_Space), all the engine's configuration strings can contain. -/
def isRustWhitespace (c : Char) : Bool :=
  c = ' ' ∨ c = '\t' ∨ c = '\n' ∨ c = '\x0b' ∨ c = '\x0c' ∨ c = '\r'

/-- Rust `str::trim`: strip whitespace from both ends. -/
def rustTrim (cs : List Char) : List Char :=
  ((cs.dropWhile isRustWhitespace).reverse.dropWhile isRustWhitespace).reverse

/-- `Spaces::from_params`: reject a non-empty second parameter; parse a
non-blank first parameter as a parenthesised integer with the pattern queue
`['(', Index, ')']`.  The outer `none` is a panic escaping the factory:
`exec` can drive `Index::matched` onto the empty suffix (content `"("`). -/
def spacesFromParams (s p : String) : Option (Except String PatternBox) :=
  if ¬p.isEmpty then some (.error ("Spaces not support param '" ++ p ++ "'"))
  else if (rustTrim s.toList).isEmpty then some (.ok (.pat (.spaces 0)))
  else
    match execP [.ch '(', .index, .ch ')'] s.toList with
    | none => none
    | some (result, _, _, match_all) =>
      if ¬match_all then some (.error ("Wrong 'Spaces" ++ s ++ "'"))
      else
        match result[1]? with
        | none => none
        | some m =>
          match chars_to_int m.chars with
          | .ok min_count => some (.ok (.pat (.spaces min_count)))
          | .error e => some (.error e)

/-- A registered pattern factory (`FromParamsFn`); the outer `Option` of
the result is a panic escaping the factory. -/
abbrev FromParamsFn : Type := String → String → Option (Except String PatternBox)

/-- The process-wide `PATTERNS` registry (a `HashMap` embedded as an
association list read through `patternsGet`). -/
abbrev Patterns : Type := List (String × FromParamsFn)

/-- `HashMap::get` on the pattern registry. -/
def patternsGet (ps : Patterns) (name : String) : Option FromParamsFn :=
  match ps with
  | [] => none
  | (k, v) :: rest => if k = name then some v else patternsGet rest name

/-- `add_pattern`: `none` is the duplicate-registration panic, otherwise
the factory is inserted. -/
def add_pattern (ps : Patterns) (name : String) (from_handle : FromParamsFn) :
    Option Patterns :=
  match patternsGet ps name with
  | some _ => none
  | none => some (ps ++ [(name, from_handle)])

/-- `to_pattern`: look the factory up and invoke it; `none` is a panic —
the `no_implemented` abort on an unregistered name, or a panic escaping the
factory itself. -/
def to_pattern (ps : Patterns) (name s p : String) : Option (Except String PatternBox) :=
  match patternsGet ps name with
  | some cb => cb s p
  | none => none

/-- `pattern::init()`: register the seven built-in kinds in source order. -/
def initPatterns : Option Patterns := do
  let ps ← add_pattern [] "identity" identityFromParams
  let ps ← add_pattern ps "spaces" spacesFromParams
  let ps ← add_pattern ps "attr_key" attrKeyFromParams
  let ps ← add_pattern ps "index" indexFromParams
  let ps ← add_pattern ps "nth" nthFromParams
  let ps ← add_pattern ps "regexp" regExpFromParams
  add_pattern ps "selector" nestedFromParams

/-- Membership in the loop range gives the loop bounds. -/
theorem mem_intRangeI {a b x : Int} (h : x ∈ intRangeI a b) : a ≤ x ∧ x ≤ b := by
  simp only [intRangeI, List.mem_map, List.mem_range] at h
  obtain ⟨k, hk, rfl⟩ := h
  omega

/-- The loop range is strictly ascending. -/
theorem pairwise_intRangeI (a b : Int) : (intRangeI a b).Pairwise (· < ·) := by
  unfold intRangeI
  refine (List.pairwise_map).2 ?_
  exact (List.pairwise_lt_range _).imp (fun h => by omega)

/-- Lower-bounding by the ceiling division of the source
(`divide_isize _ _ Ceil`) bounds the product. -/
theorem le_mul_of_ceil_le {a b i : Int} (hb : 0 < b)
    (hi : -(Int.fdiv (-a) b) ≤ i) : a ≤ i * b := by
  rw [Int.fdiv_eq_ediv _ (le_of_lt hb)] at hi
  have h3 : (-i) * b ≤ -a := (Int.le_ediv_iff_mul_le hb).mp (by linarith)
  have h4 : -(i * b) ≤ -a := by rwa [neg_mul] at h3
  linarith

/-- Upper-bounding by the floor division of the source
(`divide_isize _ _ Floor`) bounds the product. -/
theorem mul_le_of_le_fdiv {a b i : Int} (hb : 0 < b)
    (hi : i ≤ Int.fdiv a b) : i * b ≤ a := by
  rw [Int.fdiv_eq_ediv _ (le_of_lt hb)] at hi
  exact (Int.le_ediv_iff_mul_le hb).mp hi

/-- Every index the resolver loop emits is below `total`, provided every
loop position is at most `total`. -/
theorem nthLoop_bound {n index : Int} {total : Nat} {s e : Int}
    (hhigh : ∀ i, s ≤ i → i ≤ e → i * n + index ≤ (total : Int)) :
    ∀ x ∈ (intRangeI s e).filterMap (nthStep n index), x < total := by
  intro x hx
  obtain ⟨i, hi, hstep⟩ := List.mem_filterMap.1 hx
  obtain ⟨hs, he⟩ := mem_intRangeI hi
  simp only [nthStep] at hstep
  by_cases hlt : i * n + index < 1
  · simp [hlt] at hstep
  · simp [hlt] at hstep
    have h2 := hhigh i hs he
    omega

/-- For a positive coefficient the loop output is strictly ascending. -/
theorem nthLoop_pairwise_asc (n index : Int) (hn : 0 < n) (s e : Int) :
    ((intRangeI s e).filterMap (nthStep n index)).Pairwise (· < ·) := by
  refine List.Pairwise.filterMap _ ?_ (pairwise_intRangeI s e)
  intro a b hab x hx y hy
  rw [Option.mem_def] at hx hy
  simp only [nthStep] at hx hy
  by_cases ha : a * n + index < 1
  · simp [ha] at hx
  by_cases hb : b * n + index < 1
  · simp [hb] at hy
  simp only [ha, if_false] at hx
  simp only [hb, if_false] at hy
  have hmul : a * n < b * n := mul_lt_mul_of_pos_right hab hn
  cases hx
  cases hy
  omega

/-- For a negative coefficient the loop output is strictly descending. -/
theorem nthLoop_pairwise_desc (n index : Int) (hn : n < 0) (s e : Int) :
    ((intRangeI s e).filterMap (nthStep n index)).Pairwise (· > ·) := by
  refine List.Pairwise.filterMap _ ?_ (pairwise_intRangeI s e)
  intro a b hab x hx y hy
  rw [Option.mem_def] at hx hy
  simp only [nthStep] at hx hy
  by_cases ha : a * n + index < 1
  · simp [ha] at hx
  by_cases hb : b * n + index < 1
  · simp [hb] at hy
  simp only [ha, if_false] at hx
  simp only [hb, if_false] at hy
  have hmul : b * n < a * n := mul_lt_mul_of_neg_right hab hn
  cases hx
  cases hy
  omega

/-- Claim C1 counterexample: for coefficient `-1`, offset `3`, total `10`
the resolver returns `[2, 1, 0]`, not the strictly ascending `[0, 1, 2]`
the claim states — the loop pushes positions for increasing `k`, which is
decreasing position order when the coefficient is negative. -/
theorem nth_allowed_indexs_neg_counterexample :
    get_allowed_indexs (some (-1)) (some 3) 10 = some [2, 1, 0] ∧
    ([2, 1, 0] : List Nat) ≠ [0, 1, 2] := by decide

/-- Claim C1 (amended): every list the Nth resolver returns contains only
indices in `[0, total)` with no duplicates; it is strictly ascending when
the coefficient is nonnegative or absent and strictly descending when the
coefficient is negative; in particular for coefficient `-1`, offset `3`,
total `10` it returns exactly `[2, 1, 0]`. -/
theorem nth_allowed_indexs_bounded_nodup_sorted :
    (∀ (n index : Option Int) (total : Nat) (l : List Nat),
      get_allowed_indexs n index total = some l →
      (∀ x ∈ l, x < total) ∧ l.Nodup ∧
      (0 ≤ n.getD 0 → l.Pairwise (· < ·)) ∧
      (n.getD 0 < 0 → l.Pairwise (· > ·))) ∧
    get_allowed_indexs (some (-1)) (some 3) 10 = some [2, 1, 0] := by
  constructor
  · intro n index total l hl
    rcases n with _ | nv
    · rcases index with _ | idx
      · simp [get_allowed_indexs] at hl
      · simp only [get_allowed_indexs] at hl
        injection hl with hl
        by_cases hc : idx ≤ 0 ∨ idx > (total : Int)
        · simp only [hc, if_true] at hl
          subst hl
          simp
        · simp only [hc, if_false] at hl
          subst hl
          refine ⟨?_, by simp, fun _ => by simp, fun h => by simp at h⟩
          intro x hx
          simp at hx
          omega
    · simp only [get_allowed_indexs] at hl
      by_cases h0 : nv = 0
      · simp only [h0, if_pos rfl] at hl
        injection hl with hl
        by_cases hc1 : 0 < index.getD 0
        · simp only [hc1, if_true] at hl
          by_cases hc2 : index.getD 0 ≤ (total : Int)
          · simp only [hc2, if_true] at hl
            subst hl
            refine ⟨?_, by simp, fun _ => by simp, fun hlt => ?_⟩
            · intro x hx
              simp at hx
              omega
            · simp [h0] at hlt
          · simp only [hc2, if_false] at hl
            subst hl
            simp
        · simp only [hc1, if_false] at hl
          subst hl
          simp
      · by_cases hneg : nv < 0
        · simp only [if_neg h0, if_pos hneg] at hl
          by_cases hc1 : index.getD 0 ≤ 0
          · simp only [hc1, if_true] at hl
            injection hl with hl
            subst hl
            simp
          · simp only [hc1, if_false] at hl
            by_cases hc2 : index.getD 0 ≤ -nv
            · simp only [hc2, if_true] at hl
              injection hl with hl
              by_cases hc3 : index.getD 0 ≤ (total : Int)
              · simp only [hc3, if_true] at hl
                subst hl
                refine ⟨?_, by simp, fun hge => ?_, fun _ => by simp⟩
                · intro x hx
                  simp at hx
                  omega
                · simp at hge
                  omega
              · simp only [hc3, if_false] at hl
                subst hl
                simp
            · simp only [hc2, if_false] at hl
              by_cases hse :
                  (if divide_isize (index.getD 0 - (total : Int)) (-nv) RoundType.ceil < 0 then 0
                   else divide_isize (index.getD 0 - (total : Int)) (-nv) RoundType.ceil) >
                    divide_isize (index.getD 0 - 1) (-nv) RoundType.floor
              · simp only [hse, if_true] at hl
                injection hl with hl
                subst hl
                simp
              · simp only [hse, if_false] at hl
                injection hl with hl
                subst hl
                have hm : (0 : Int) < -nv := by omega
                have hdesc := nthLoop_pairwise_desc nv (index.getD 0) hneg
                  (if divide_isize (index.getD 0 - (total : Int)) (-nv) RoundType.ceil < 0 then 0
                   else divide_isize (index.getD 0 - (total : Int)) (-nv) RoundType.ceil)
                  (divide_isize (index.getD 0 - 1) (-nv) RoundType.floor)
                refine ⟨?_, hdesc.imp (fun hab => Nat.ne_of_gt hab), fun hge => ?_, fun _ => hdesc⟩
                · refine nthLoop_bound ?_
                  intro i hsi hie
                  have hceil : -(Int.fdiv (-(index.getD 0 - (total : Int))) (-nv)) ≤ i := by
                    simp only [divide_isize] at hsi
                    split at hsi <;> omega
                  have := le_mul_of_ceil_le hm hceil
                  have hmn : i * -nv = -(i * nv) := by ring
                  linarith
                · simp at hge
                  omega
        · have hpos : 0 < nv := by omega
          simp only [if_neg h0, if_neg hneg] at hl
          by_cases hse :
              (if divide_isize (1 - index.getD 0) nv RoundType.ceil < 0 then 0
               else divide_isize (1 - index.getD 0) nv RoundType.ceil) >
                divide_isize ((total : Int) - index.getD 0) nv RoundType.floor
          · simp only [hse, if_true] at hl
            injection hl with hl
            subst hl
            simp
          · simp only [hse, if_false] at hl
            injection hl with hl
            subst hl
            have hasc := nthLoop_pairwise_asc nv (index.getD 0) hpos
              (if divide_isize (1 - index.getD 0) nv RoundType.ceil < 0 then 0
               else divide_isize (1 - index.getD 0) nv RoundType.ceil)
              (divide_isize ((total : Int) - index.getD 0) nv RoundType.floor)
            refine ⟨?_, hasc.imp (fun hab => Nat.ne_of_lt hab), fun _ => hasc, fun hlt => ?_⟩
            · refine nthLoop_bound ?_
              intro i hsi hie
              have hfloor : i ≤ Int.fdiv ((total : Int) - index.getD 0) nv := by
                simp only [divide_isize] at hie
                omega
              have := mul_le_of_le_fdiv hpos hfloor
              linarith
            · simp at hlt
              omega
  · decide

/-- Closed witness for the amended C1 theorem at coefficient `-2`,
offset `8`, total `10`. -/
theorem nth_allowed_indexs_bounded_nodup_sorted_witness :
    (∀ x ∈ [7, 5, 3, 1], x < 10) ∧ ([7, 5, 3, 1] : List Nat).Nodup ∧
    ((0 : Int) ≤ (some (-2) : Option Int).getD 0 → ([7, 5, 3, 1] : List Nat).Pairwise (· < ·)) ∧
    ((some (-2) : Option Int).getD 0 < 0 → ([7, 5, 3, 1] : List Nat).Pairwise (· > ·)) :=
  nth_allowed_indexs_bounded_nodup_sorted.1 (some (-2)) (some 8) 10 [7, 5, 3, 1] (by decide)

/-- Claim C2 (code bug): `exec` over the queue `[Index, '2']` on the input
`"1a2"` reports full consumption with consumed length 3, yet the steps'
characters concatenate to `"122"`, not the 3-character prefix `"1a2"`:
`Index::matched` collects the non-contiguous digits `'1','2'` (its digit
loop never breaks on a non-digit), violating the prefix discipline the
claim states for every queue. -/
theorem exec_full_consumption_concat_mismatch :
    execP [.index, .ch '2'] ['1', 'a', '2'] =
      some ([⟨['1', '2'], "index", []⟩, ⟨['2'], "", []⟩], 3, 2, true) ∧
    (List.map Matched.chars [(⟨['1', '2'], "index", []⟩ : Matched), ⟨['2'], "", []⟩]).flatten ≠
      (['1', 'a', '2'] : List Char).take 3 := by decide

/-- Claim C3 (code bug): the `Index` pattern rejects the single digit `9`
(the source's digit range `'0'..'9'` is exclusive), and on `"1a2"` it
reports the non-contiguous characters `"12"` instead of stopping at the
first non-digit (the digit loop is missing a break). -/
theorem index_matched_nine_noncontiguous_bug :
    pmatch .index ['9'] = some none ∧
    pmatch .index ['1', 'a', '2'] = some (some ⟨['1', '2'], "index", []⟩) := by decide

/-- Claim C4 counterexample: with a document whose id index maps `"x"` to
the element `E` with uuid 1, the empty input collection does not contain
`E`, yet `all_handle` under a truthy cache flag returns `[]`, not `[E]` —
the whole handler body is guarded by the input being non-empty. -/
theorem id_all_handle_empty_collection_counterexample :
    idAllHandle (fun _ => some ⟨fun s => if s = "x" then some ⟨some 1⟩ else none⟩) "x" []
        (some true) = [] ∧
    ([] : List Element) ≠ [⟨some 1⟩] := ⟨rfl, by decide⟩

/-- Claim C4 (amended): for a NON-EMPTY input collection whose first
element's owner document maps the requested id to `E`, and which contains
no element identical to `E` by stable identity, a truthy cache flag
returns `[E]` without any membership check while a falsy flag scans the
collection and returns `[]`. -/
theorem id_all_handle_cache_mode_contract :
    ∀ (ownerDocument : Element → Option Doc) (id : String) (c0 : Element)
      (cr : List Element) (doc : Doc) (E : Element) (b : Bool),
      ownerDocument c0 = some doc →
      doc.byId id = some E →
      (∀ e ∈ c0 :: cr, elemIs e E = false) →
      idAllHandle ownerDocument id (c0 :: cr) (some b) = [E] ∧
      idAllHandle ownerDocument id (c0 :: cr) none = [] := by
  intro od id c0 cr doc E b hod hbyid hmem
  constructor
  · simp [idAllHandle, hod, hbyid, elemCloned]
  · have hfind : (c0 :: cr).find? (fun ele => elemIs ele E) = none :=
      List.find?_eq_none.2 (fun e he => by simp [hmem e he])
    simp [idAllHandle, hod, hbyid, hfind]

/-- Closed witness for the amended C4 theorem: a one-element collection
not containing the id-matched element. -/
theorem id_all_handle_cache_mode_contract_witness :
    idAllHandle (fun _ => some ⟨fun s => if s = "x" then some ⟨some 1⟩ else none⟩) "x"
        [⟨some 2⟩] (some true) = [⟨some 1⟩] ∧
    idAllHandle (fun _ => some ⟨fun s => if s = "x" then some ⟨some 1⟩ else none⟩) "x"
        [⟨some 2⟩] none = [] :=
  id_all_handle_cache_mode_contract
    (fun _ => some ⟨fun s => if s = "x" then some ⟨some 1⟩ else none⟩) "x" ⟨some 2⟩ []
    ⟨fun s => if s = "x" then some ⟨some 1⟩ else none⟩ ⟨some 1⟩ true rfl rfl (by decide)

/-- Claim C5: the closed-form cases of the Nth resolver — `2n+1` over 10
gives `[0,2,4,6,8]`; coefficient 0 with offset 5 over 3 gives `[]`; absent
coefficient with offset 4 over 10 gives `[3]`; and for coefficient 0 or
absent the result is the singleton of `offset - 1` exactly when
`1 ≤ offset ≤ total`, else empty. -/
theorem nth_allowed_indexs_closed_form_cases :
    get_allowed_indexs (some 2) (some 1) 10 = some [0, 2, 4, 6, 8] ∧
    get_allowed_indexs (some 0) (some 5) 3 = some [] ∧
    get_allowed_indexs none (some 4) 10 = some [3] ∧
    (∀ (offset : Int) (total : Nat),
      get_allowed_indexs (some 0) (some offset) total =
        some (if 1 ≤ offset ∧ offset ≤ (total : Int) then [(offset - 1).toNat] else []) ∧
      get_allowed_indexs none (some offset) total =
        some (if 1 ≤ offset ∧ offset ≤ (total : Int) then [(offset - 1).toNat] else [])) := by
  refine ⟨by decide, by decide, by decide, ?_⟩
  intro offset total
  constructor
  · simp only [get_allowed_indexs, Option.getD]
    split_ifs <;> first | rfl | (exfalso; omega)
  · simp only [get_allowed_indexs]
    split_ifs <;> first | rfl | (exfalso; omega)

/-- The `Nth` regular expression fails (without panicking) on any input
starting with `e`: neither alternative can begin with that character. -/
theorem nthRegexRun_e (rest : List Char) : nthRegexRun ('e' :: rest) = some none := rfl

/-- The `Nth` regular expression fails (without panicking) on any input
starting with `o`. -/
theorem nthRegexRun_o (rest : List Char) : nthRegexRun ('o' :: rest) = some none := rfl

/-- `Nth::matched` on any input starting with `even` takes the keyword
branch: captures n = 2, index = 0. -/
theorem nthMatchedFn_on_even_inputs (rest : List Char) :
    nthMatchedFn (['e', 'v', 'e', 'n'] ++ rest) =
      some ⟨['e', 'v', 'e', 'n'], "nth", [("n", "2"), ("index", "0")]⟩ := by
  unfold nthMatchedFn nthMatchedRun
  rw [show (['e', 'v', 'e', 'n'] ++ rest) = 'e' :: (['v', 'e', 'n'] ++ rest) from rfl,
    nthRegexRun_e]
  simp [seqMatchedFn, Option.join]

/-- `Nth::matched` on any input starting with `odd` takes the keyword
branch: captures n = 2, index = 1. -/
theorem nthMatchedFn_on_odd_inputs (rest : List Char) :
    nthMatchedFn (['o', 'd', 'd'] ++ rest) =
      some ⟨['o', 'd', 'd'], "nth", [("n", "2"), ("index", "1")]⟩ := by
  unfold nthMatchedFn nthMatchedRun
  rw [show (['o', 'd', 'd'] ++ rest) = 'o' :: (['d', 'd'] ++ rest) from rfl,
    nthRegexRun_o]
  simp only [seqMatchedFn]
  by_cases h : (4 : Nat) > ('o' :: (['d', 'd'] ++ rest)).length
  · simp [h, Option.join]
  · simp [h, List.take_succ_cons, Option.join]

/-- Claim C6: on every input beginning with `even` the `Nth` pattern's
capture map agrees on every key with the map produced for `2n+0`, and
likewise `odd` with `2n+1`; the shared maps are n = 2 with index = 0 and
index = 1 respectively. -/
theorem nth_even_odd_keyword_capture_equiv :
    (∀ (rest : List Char) (k : String),
      (nthMatchedFn (['e', 'v', 'e', 'n'] ++ rest)).map (fun m => mdGet m.data k) =
        (nthMatchedFn ['2', 'n', '+', '0']).map (fun m => mdGet m.data k) ∧
      (nthMatchedFn (['o', 'd', 'd'] ++ rest)).map (fun m => mdGet m.data k) =
        (nthMatchedFn ['2', 'n', '+', '1']).map (fun m => mdGet m.data k)) ∧
    (nthMatchedFn ['2', 'n', '+', '0']).map
        (fun m => (mdGet m.data "n", mdGet m.data "index")) = some (some "2", some "0") ∧
    (nthMatchedFn ['2', 'n', '+', '1']).map
        (fun m => (mdGet m.data "n", mdGet m.data "index")) = some (some "2", some "1") := by
  refine ⟨?_, by decide, by decide⟩
  intro rest k
  rw [nthMatchedFn_on_even_inputs, nthMatchedFn_on_odd_inputs]
  have h0 : nthMatchedFn ['2', 'n', '+', '0'] =
      some ⟨['2', 'n', '+', '0'], "nth", [("index", "0"), ("n", "2")]⟩ := by decide
  have h1 : nthMatchedFn ['2', 'n', '+', '1'] =
      some ⟨['2', 'n', '+', '1'], "nth", [("index", "1"), ("n", "2")]⟩ := by decide
  rw [h0, h1]
  constructor <;> (
    simp only [Option.map_some']
    congr 1
    by_cases hn : ("n" : String) = k
    · subst hn
      decide
    · by_cases hi : ("index" : String) = k
      · subst hi
        decide
      · simp [mdGet, hn, hi])

/-- Claim C7: the universal rule's `all_handle` returns the input
collection itself — same elements, same order — for every collection
(including the empty one) and every cache flag. -/
theorem all_rule_identity_copy :
    ∀ (eles : List Element) (useCacheOpt : Option Bool),
      allAllHandle eles useCacheOpt = eles := by
  intro eles useCacheOpt
  unfold allAllHandle elementsCloned
  rw [show elemCloned = id from rfl, List.map_id]

/-- Claim C8: a `RegExp` call with caching disabled leaves the shared
cache untouched, and with caching enabled a second call for the same
anchored text returns exactly the compiled expression the first call
produced (and leaves the cache as the first call left it). -/
theorem regexp_cache_reuse_and_no_insert :
    ∀ (context : String) (m : RegexCache),
      (get_rule context false m).2 = m ∧
      get_rule context true ((get_rule context true m).2) =
        ((get_rule context true m).1, (get_rule context true m).2) := by
  intro context m
  constructor
  · simp [get_rule]
  · unfold get_rule
    cases h : regexCacheGet m ("^" ++ context) with
    | some r => simp [h]
    | none => simp [h, regexCacheGet]

/-- Claim C9 counterexample: after `init()` the name `spaces` is
registered, yet `to_pattern("spaces", "(", "")` still aborts — the factory
runs `exec` over `['(', Index, ')']` on `"("`, which drives
`Index::matched` onto the empty suffix and panics — so a fatal abort is
not raised *exactly* when the name is unregistered. -/
theorem to_pattern_registered_factory_panic_counterexample :
    initPatterns.map
        (fun ps => ((patternsGet ps "spaces").isSome, (to_pattern ps "spaces" "(" "").isNone)) =
      some (true, true) := by decide

/-- Claim C9 (amended): `add_pattern` aborts exactly on a duplicate name
and otherwise inserts the factory; `to_pattern` aborts on every
unregistered name and otherwise hands back exactly what the factory
returns — which, for every built-in factory except `spaces` (whose
internal `exec` can panic, see the counterexample), is always a returned
`Ok` pattern or descriptive `Err` string. -/
theorem to_pattern_add_pattern_panic_contract :
    (∀ (ps : Patterns) (name : String) (f : FromParamsFn),
      ((add_pattern ps name f).isNone ↔ (patternsGet ps name).isSome) ∧
      (patternsGet ps name = none → add_pattern ps name f = some (ps ++ [(name, f)]))) ∧
    (∀ (ps : Patterns) (name s p : String),
      patternsGet ps name = none → to_pattern ps name s p = none) ∧
    (∀ (ps : Patterns) (name s p : String) (cb : FromParamsFn),
      patternsGet ps name = some cb → to_pattern ps name s p = cb s p) ∧
    (∀ s p : String,
      (identityFromParams s p).isSome ∧ (attrKeyFromParams s p).isSome ∧
      (indexFromParams s p).isSome ∧ (nthFromParams s p).isSome ∧
      (regExpFromParams s p).isSome ∧ (nestedFromParams s p).isSome) := by
  refine ⟨?_, ?_, ?_, ?_⟩
  · intro ps name f
    constructor
    · unfold add_pattern
      cases h : patternsGet ps name <;> simp [h]
    · intro h
      unfold add_pattern
      rw [h]
  · intro ps name s p h
    unfold to_pattern
    rw [h]
  · intro ps name s p cb h
    unfold to_pattern
    rw [h]
  · intro s p
    exact ⟨rfl, rfl, rfl, rfl, rfl, rfl⟩

/-- Closed witness for the amended C9 theorem: on the empty registry,
`to_pattern` for `nth` panics and `add_pattern` inserts the factory. -/
theorem to_pattern_add_pattern_panic_contract_witness :
    to_pattern [] "nth" "" "" = none ∧
    add_pattern [] "nth" nthFromParams = some [("nth", nthFromParams)] :=
  ⟨to_pattern_add_pattern_panic_contract.2.1 [] "nth" "" "" rfl,
   (to_pattern_add_pattern_panic_contract.1 [] "nth" nthFromParams).2 rfl⟩

/-- On all-ASCII text the UTF-8 byte length is the character count. -/
theorem utf8Length_of_ascii {l : List Char} (h : ∀ c ∈ l, c.toNat < 128) :
    utf8Length l = l.length := by
  induction l with
  | nil => rfl
  | cons c t ih =>
    have hc := h c (List.mem_cons_self c t)
    have ht := ih (fun x hx => h x (List.mem_cons_of_mem c hx))
    unfold utf8Length at ht ⊢
    simp only [List.map_cons, List.sum_cons, List.length_cons]
    rw [ht]
    unfold charUtf8Len
    rw [if_pos hc]
    omega

/-- The regex step of `Nth::matched` cannot panic on all-ASCII input: the
byte length of any match never exceeds the characters available. -/
theorem nthRegexRun_ascii_ne_none {cs : List Char} (h : ∀ c ∈ cs, c.toNat < 128) :
    nthRegexRun cs ≠ none := by
  have hlen : ∀ k : Nat, ¬(cs.length < utf8Length (cs.take k)) := by
    intro k
    rw [utf8Length_of_ascii (fun c hc => h c (List.take_subset k cs hc))]
    rw [List.length_take]
    omega
  unfold nthRegexRun
  cases hA : branchA cs with
  | some t =>
    obtain ⟨g1, g2, g3, g4, r⟩ := t
    simp [hlen]
  | none =>
    cases hB : branchB cs with
    | some t =>
      obtain ⟨g5, g6, r⟩ := t
      simp [hlen]
    | none => simp

/-- Claim C10 counterexample: `Nth::matched` panics on the NON-EMPTY input
`"2n\u{00A0}+1"`: the Unicode `\s` class lets the regex match all five
characters, whose UTF-8 byte length is 6 (the no-break space is two
bytes), and `chars[..6]` is out of bounds for the 5-character buffer — so
non-emptiness does not make every built-in kind's `matched` total. -/
theorem nth_matched_nonempty_input_panic_counterexample :
    pmatch .nth ['2', 'n', '\u00A0', '+', '1'] = none ∧
    (['2', 'n', '\u00A0', '+', '1'] : List Char) ≠ [] := by decide

/-- Claim C10 (amended): the literal-char, `Identity` and `Index` patterns
panic on the empty input (they read position 0 unconditionally), so
non-emptiness is a necessary precondition for them; on non-empty input
every modelled kind except the regex-backed `Nth` returns without
out-of-bounds access, and `Nth` does so on all-ASCII input — but its
byte-length slice panics on non-empty inputs such as `"2n\u{00A0}+1"`, so
non-emptiness alone is not sufficient for the regex-backed kinds; and
`exec` can drive a pattern onto the empty remaining suffix, panicking,
when the queue outruns the input. -/
theorem pattern_nonempty_domain_except_regex :
    (∀ c : Char, pmatch (.ch c) [] = none) ∧
    (∀ b : Bool, pmatch (.identity b) [] = none) ∧
    pmatch .index [] = none ∧
    (∀ (p : Pat) (cs : List Char), cs ≠ [] → p ≠ .nth → (pmatch p cs).isSome = true) ∧
    (∀ cs : List Char, cs.all (fun c => c.toNat < 128) = true →
      (pmatch .nth cs).isSome = true) ∧
    pmatch .nth ['2', 'n', '\u00A0', '+', '1'] = none ∧
    execP [.ch 'a', .ch 'b'] ['a'] = none := by
  refine ⟨fun c => rfl, fun b => rfl, rfl, ?_, ?_, by decide, by decide⟩
  · intro p cs hne hnp
    cases p <;> first | (exact absurd rfl hnp) | (cases cs <;> (first | rfl | simp_all))
  · intro cs hall
    rw [List.all_eq_true] at hall
    have h : ∀ c ∈ cs, c.toNat < 128 := fun c hc => by simpa using hall c hc
    show (nthMatchedRun cs).isSome = true
    unfold nthMatchedRun
    cases hr : nthRegexRun cs with
    | none => exact absurd hr (nthRegexRun_ascii_ne_none h)
    | some o =>
      cases o <;> simp

/-- Closed witness for the amended C10 theorem: `Index` on the non-empty
input `"7"` and the `Nth` kind on the all-ASCII input `"2n+1"` both
return without panicking. -/
theorem pattern_nonempty_domain_except_regex_witness :
    (pmatch Pat.index ['7']).isSome = true ∧
    (pmatch Pat.nth ['2', 'n', '+', '1']).isSome = true :=
  ⟨pattern_nonempty_domain_except_regex.2.2.2.1 Pat.index ['7'] (by decide) (by decide),
   pattern_nonempty_domain_except_regex.2.2.2.2.1 ['2', 'n', '+', '1'] (by decide)⟩
